import Mathlib

/-!
Verification of the node-simplification core of the Figma-Context-MCP
repository (src/services/simplify-node-response.ts).

The embedding models JavaScript numbers as rationals (ℚ), strings as
Lean strings, and possibly-absent object fields as `Option` (or, where
the source performs a runtime type test such as `Array.isArray` or
`typeof x === "number"`, as the three-valued `JsField`).  Fallible code
(the `throw` in `parsePaint` and the runtime `TypeError` hidden behind
the `raw.color!` non-null assertion) is modelled with `Except`.
-/

namespace Figma

/-! ## Colors and paints (raw side) -/

/-- RGBA color with channels nominally in [0,1], as in the Figma REST API. -/
structure RGBA where
  r : ℚ
  g : ℚ
  b : ℚ
  a : ℚ
deriving DecidableEq, Repr

/-- A 2-d vector, used for gradient handle positions. -/
structure Vec2 where
  x : ℚ
  y : ℚ
deriving DecidableEq, Repr

/-- One raw gradient stop: a position along the gradient axis and a color.
Gradient stops carry no separate opacity field. -/
structure GradientStop where
  position : ℚ
  color : RGBA
deriving DecidableEq, Repr

/-- A raw paint record.  At runtime a paint is a loosely-typed tagged record:
the `type` tag decides which of the other fields are meaningful, and any of
them may be absent, so every field other than the tag is an `Option`. -/
structure Paint where
  type : String
  color : Option RGBA
  opacity : Option ℚ
  imageRef : Option String
  scaleMode : Option String
  gradientHandlePositions : Option (List Vec2)
  gradientStops : Option (List GradientStop)
deriving DecidableEq, Repr

/-! ## Simplified (output) structures -/

/-- Output color value: `{ hex, opacity }`, produced only by `convertColor`. -/
structure ColorValue where
  hex : String
  opacity : ℚ
deriving DecidableEq, Repr

/-- One simplified gradient stop in the output. -/
structure SimplifiedStop where
  position : ℚ
  color : ColorValue
deriving DecidableEq, Repr

/-- A normalized fill descriptor (`SimplifiedFill` in the source): the `type`
tag plus the optional fields of whichever variant is populated. -/
structure SimplifiedFill where
  type : String
  hex : Option String
  opacity : Option ℚ
  imageRef : Option String
  scaleMode : Option String
  gradientHandlePositions : Option (List Vec2)
  gradientStops : Option (List SimplifiedStop)
deriving DecidableEq, Repr

/-- The two failure modes of the paint normalizer:
`unrecognizedPaintKind` models the explicit
`throw new Error` ("Unknown paint type: ...") on a tag outside the
handled branches, and `typeError` models the runtime `TypeError` raised when
the code dereferences a missing field (`raw.color!` on a solid paint with no
color, or `raw.gradientStops.map` on a gradient paint with no stop list). -/
inductive PaintError where
  | unrecognizedPaintKind (tag : String)
  | typeError
deriving DecidableEq, Repr

/-! ## Numeric helpers -/

/-- Model of JavaScript `Math.round`: round half toward positive infinity. -/
def jsRound (q : ℚ) : ℤ := ⌊q + 1 / 2⌋

/-- Tail of the hex rendering: peels base-16 digits of `n` onto `acc`,
least significant first.  The `fuel` counter only forces termination; it is
never exhausted when `n < fuel` (see `natToHexCore_fuel_irrel`). -/
def natToHexCore (fuel n : ℕ) (acc : List Char) : List Char :=
  match fuel with
  | 0 => acc
  | fuel + 1 =>
    if n < 16 then Nat.digitChar n :: acc
    else natToHexCore fuel (n / 16) (Nat.digitChar (n % 16) :: acc)

/-- Hex digits of a natural number, most significant first, lowercase
letters, exactly like JavaScript `n.toString(16)` for a nonnegative
integer (`natToHex 0 = ['0']`). -/
def natToHex (n : ℕ) : List Char := natToHexCore (n + 1) n []

/-- Abstract stand-in for JavaScript number-to-string coercion (template
literals such as the backtick-interpolation producing "<value>px").  The
claims under verification never inspect the decimal rendering itself, only
which rational is rendered, so any injective-enough computable rendering of
ℚ serves. -/
def jsNumToString (q : ℚ) : String := toString q

/-! ## convertColor -/

/-- Model of `convertColor(color, opacity = 1)`.  The second argument is an
`Option` so that an absent (`undefined`) argument — which in JavaScript
triggers the default value 1 — is representable.

Source:
  const r = Math.round(color.r * 255); (likewise g, b)
  const a = Math.round(opacity * color.a * 100) / 100;
  const hex = "#" + ((1 << 24) + (r << 16) + (g << 8) + b)
                    .toString(16).slice(1).toUpperCase();
The shifts are modelled as exact powers of two; for channels in [0,1] the
rounded bytes lie in [0,255] and the JavaScript 32-bit shifts agree with
exact arithmetic. -/
def convertColor (color : RGBA) (opacity : Option ℚ) : ColorValue :=
  let r := jsRound (color.r * 255)
  let g := jsRound (color.g * 255)
  let b := jsRound (color.b * 255)
  let a := (jsRound (opacity.getD 1 * color.a * 100) : ℚ) / 100
  let hex :=
    String.mk ('#' :: (((natToHex (2 ^ 24 + r * 2 ^ 16 + g * 2 ^ 8 + b).toNat).drop 1).map
      Char.toUpper))
  { hex := hex, opacity := a }

/-! ## parsePaint -/

/-- The four gradient tags handled by `parsePaint`. -/
def gradientTags : List String :=
  ["GRADIENT_LINEAR", "GRADIENT_RADIAL", "GRADIENT_ANGULAR", "GRADIENT_DIAMOND"]

/-- All tags `parsePaint` recognizes (the spec's closed variant: solid,
image, and the four gradient kinds). -/
def recognizedTags : List String := "IMAGE" :: "SOLID" :: gradientTags

/-- Model of `parsePaint(raw)`.  Branch order follows the source:
IMAGE, SOLID, the four gradient tags, then the `throw`.  The SOLID branch
dereferences `raw.color!` (a `TypeError` at runtime when the color is
absent) and the gradient branch dereferences `raw.gradientStops`. -/
def parsePaint (raw : Paint) : Except PaintError SimplifiedFill :=
  if raw.type = "IMAGE" then
    .ok { type := "IMAGE", hex := none, opacity := none,
          imageRef := raw.imageRef, scaleMode := raw.scaleMode,
          gradientHandlePositions := none, gradientStops := none }
  else if raw.type = "SOLID" then
    match raw.color with
    | none => .error PaintError.typeError
    | some c =>
      let cv := convertColor c raw.opacity
      .ok { type := "SOLID", hex := some cv.hex, opacity := some cv.opacity,
            imageRef := none, scaleMode := none,
            gradientHandlePositions := none, gradientStops := none }
  else if raw.type ∈ gradientTags then
    match raw.gradientStops with
    | none => .error PaintError.typeError
    | some stops =>
      .ok { type := raw.type, hex := none, opacity := none,
            imageRef := none, scaleMode := none,
            gradientHandlePositions := raw.gradientHandlePositions,
            gradientStops := some (stops.map fun s =>
              { position := s.position, color := convertColor s.color none }) }
  else
    .error (PaintError.unrecognizedPaintKind raw.type)

/-! ## Raw nodes -/

/-- A loosely-typed object field as `parseNode` sees it: `absent` (the key is
missing or `undefined`, so `hasValue` is false), `other` (the key is present
but the value fails the runtime type test the source performs on it, such as
`Array.isArray` or `typeof x === "number"`), or `val v` (present and of the
tested type). -/
inductive JsField (α : Type) where
  | absent
  | other
  | val (v : α)
deriving DecidableEq, Repr

/-- The raw `style` record of a text node.  Every field may be absent. -/
structure RawTextStyle where
  fontFamily : Option String
  fontWeight : Option ℚ
  fontSize : Option ℚ
  lineHeightPx : Option ℚ
  letterSpacing : Option ℚ
  textCase : Option String
  textAlignHorizontal : Option String
  textAlignVertical : Option String
deriving DecidableEq, Repr

/-- The raw `individualStrokeWeights` record; each side may be missing or
non-numeric (modelled as `none`). -/
structure RawStrokeWeights where
  top : Option ℚ
  right : Option ℚ
  bottom : Option ℚ
  left : Option ℚ
deriving DecidableEq, Repr

/-- Output per-side stroke weights, copied field-by-field once the
structural check passed. -/
structure StrokeWeights where
  top : ℚ
  right : ℚ
  bottom : ℚ
  left : ℚ
deriving DecidableEq, Repr

/-- The non-recursive fields of a raw node that `parseNode` reads. -/
structure RawProps where
  id : String
  name : String
  type : String
  characters : Option String
  style : Option RawTextStyle
  fills : JsField (List Paint)
  strokes : JsField (List Paint)
  strokeWeight : JsField ℚ
  strokeDashes : JsField (List ℚ)
  individualStrokeWeights : Option RawStrokeWeights
  opacity : JsField ℚ
  cornerRadius : JsField ℚ
deriving DecidableEq, Repr

/-- A raw document node: its fields plus an optional children list. -/
inductive RawNode where
  | mk (props : RawProps) (children : Option (List RawNode))

def RawNode.props : RawNode → RawProps
  | .mk p _ => p

def RawNode.children : RawNode → Option (List RawNode)
  | .mk _ c => c

/-- Modelled from the spec: the external layout collaborator
`buildSimplifiedLayout` (src/transformers/layout.ts, outside this core) is
specified only as a pure function `(node, parent?) -> LayoutDescriptor`
whose result is attached unconditionally and treated as opaque.  We model
the opaque descriptor as the pair of the collaborator's arguments — the
universal pure function of that signature, through which any concrete
collaborator factors. -/
structure SimplifiedLayout where
  node : RawNode
  parent : Option RawNode

/-- Modelled from the spec: see `SimplifiedLayout`. -/
def buildSimplifiedLayout (n : RawNode) (parent : Option RawNode) : SimplifiedLayout :=
  { node := n, parent := parent }

/-- The normalized text-style record (`Partial<...>` in the source: every
field may be absent). -/
structure SimplifiedTextStyle where
  fontFamily : Option String
  fontWeight : Option ℚ
  fontSize : Option ℚ
  lineHeight : Option String
  letterSpacing : Option String
  textCase : Option String
  textAlignHorizontal : Option String
  textAlignVertical : Option String
deriving DecidableEq, Repr

/-- The non-recursive fields of a normalized node. -/
structure SimplifiedProps where
  id : String
  name : String
  type : String
  text : Option String
  textStyle : Option SimplifiedTextStyle
  fills : Option (List SimplifiedFill)
  strokes : Option (List SimplifiedFill)
  strokeWeight : Option ℚ
  strokeDashes : Option (List ℚ)
  individualStrokeWeights : Option StrokeWeights
  opacity : Option ℚ
  borderRadius : Option String
  layout : Option SimplifiedLayout

/-- A normalized node: its fields plus an optional children list. -/
inductive SimplifiedNode where
  | mk (props : SimplifiedProps) (children : Option (List SimplifiedNode))

def SimplifiedNode.props : SimplifiedNode → SimplifiedProps
  | .mk p _ => p

def SimplifiedNode.children : SimplifiedNode → Option (List SimplifiedNode)
  | .mk _ c => c

/-! ## Attribute extractors and the node transformer -/

/-- Modelled from the spec: the `isTruthy` guard on text content — "present
only if the source field exists and is non-empty after normalization (a
present-but-empty string is treated as absent)".  JavaScript string
truthiness: non-empty. -/
def isTruthyString (s : String) : Bool := s != ""

/-- Modelled from the spec: the `isStrokeWeights` structural check
(src/utils/identity.ts, outside this core) — "accepts only when all four
sides are present and numeric". -/
def isStrokeWeights (w : RawStrokeWeights) : Bool :=
  (w.top).isSome && (w.right).isSome && (w.bottom).isSome && (w.left).isSome

/-- Model of the inline text-style object built when `hasValue("style", n)`
holds.  The `lineHeight` and `letterSpacing` guards are JavaScript
truthiness tests (`x && y ? ... : undefined`), so a present-but-zero
operand also suppresses the derived field; the source's extra
`letterSpacing !== 0` conjunct is subsumed by truthiness. -/
def parseTextStyle (style : RawTextStyle) : SimplifiedTextStyle :=
  { fontFamily := style.fontFamily
    fontWeight := style.fontWeight
    fontSize := style.fontSize
    lineHeight :=
      match style.lineHeightPx, style.fontSize with
      | some lh, some fs =>
        if lh ≠ 0 ∧ fs ≠ 0 then some (jsNumToString (lh / fs) ++ "em") else none
      | _, _ => none
    letterSpacing :=
      match style.letterSpacing, style.fontSize with
      | some ls, some fs =>
        if ls ≠ 0 ∧ fs ≠ 0 then some (jsNumToString (ls / fs * 100) ++ "%") else none
      | _, _ => none
    textCase := style.textCase
    textAlignHorizontal := style.textAlignHorizontal
    textAlignVertical := style.textAlignVertical }

/-- Model of `paints.map(parsePaint)` for a JavaScript array map whose
callback can throw: entries are processed left to right and the first
exception aborts the whole map. -/
def mapPaints : List Paint → Except PaintError (List SimplifiedFill)
  | [] => .ok []
  | p :: rest => do
    let f ← parsePaint p
    let fs ← mapPaints rest
    .ok (f :: fs)

/-- Model of the two symmetric fills/strokes blocks of `parseNode`:
`if (hasValue("fills", n) && Array.isArray(n.fills)) simplified.fills =
n.fills.map(parsePaint);` — the attribute is produced exactly when the field
is an array, each entry going through `parsePaint`, whose exception aborts
the whole call. -/
def fillsResult (f : JsField (List Paint)) : Except PaintError (Option (List SimplifiedFill)) :=
  match f with
  | .val l => Except.map some (mapPaints l)
  | _ => pure none

/-- The pure part of `parseNode`: given the already-computed fills, strokes
and children, assemble the simplified node.  Every attribute block mirrors
the corresponding source block, in source order:
- `text`: `hasValue("characters", n, isTruthy)`;
- `textStyle`: `hasValue("style", n)`;
- `strokeWeight`: `hasValue(...) && typeof n.strokeWeight === "number" &&
  simplified.strokes?.length` (the last conjunct is truthy only for a
  present non-empty strokes attribute);
- `strokeDashes`: `hasValue(...) && Array.isArray(...)`;
- `individualStrokeWeights`: `hasValue(..., isStrokeWeights)` (all four
  sides present and numeric), copied field-by-field;
- `opacity`: `hasValue(...) && typeof ... === "number"`;
- `borderRadius`: `hasValue("cornerRadius", ...) && typeof ... === "number"`,
  rendered as a px string;
- `layout`: attached unconditionally from the external collaborator. -/
def assembleNode (props : RawProps) (n : RawNode) (parent : Option RawNode)
    (fills strokes : Option (List SimplifiedFill))
    (children : Option (List SimplifiedNode)) : SimplifiedNode :=
  SimplifiedNode.mk
    { id := props.id, name := props.name, type := props.type,
      text :=
        match props.characters with
        | some s => if isTruthyString s then some s else none
        | none => none,
      textStyle := props.style.map parseTextStyle,
      fills := fills,
      strokes := strokes,
      strokeWeight :=
        match props.strokeWeight with
        | .val w =>
          (match strokes with
           | some l => if 0 < l.length then some w else none
           | none => none)
        | _ => none,
      strokeDashes :=
        match props.strokeDashes with
        | .val l => some l
        | _ => none,
      individualStrokeWeights :=
        match props.individualStrokeWeights with
        | some w =>
          (match w.top, w.right, w.bottom, w.left with
           | some t, some r, some b, some l =>
             some { top := t, right := r, bottom := b, left := l }
           | _, _, _, _ => none)
        | none => none,
      opacity :=
        match props.opacity with
        | .val q => some q
        | _ => none,
      borderRadius :=
        match props.cornerRadius with
        | .val q => some (jsNumToString q ++ "px")
        | _ => none,
      layout := some (buildSimplifiedLayout n parent) }
    children

mutual
/-- Model of `parseNode(n, parent?)`.  The three fallible steps (fills,
strokes, children) are sequenced in the `Except` monad in source order,
exactly as the source's exceptions propagate; all other attribute blocks
are pure and live in `assembleNode`.  The presence checks
`hasValue`/`isTruthy`/`isStrokeWeights` (src/utils/identity.ts, outside
this core) are modelled from the spec as key-presence plus the runtime
type test the source combines them with. -/
def parseNode : RawNode → Option RawNode → Except PaintError SimplifiedNode
  | .mk props childrenField, parent => do
    let n := RawNode.mk props childrenField
    let fills ← fillsResult props.fills
    let strokes ← fillsResult props.strokes
    let children : Option (List SimplifiedNode) ←
      match childrenField with
      | some cs =>
        if 0 < cs.length then Except.map some (parseNodeList cs n) else pure none
      | none => pure none
    .ok (assembleNode props n parent fills strokes children)

/-- Children are transformed left to right with the current node as parent
(`n.children.map((child) => parseNode(child, n))`), the first exception
aborting the whole call. -/
def parseNodeList : List RawNode → RawNode → Except PaintError (List SimplifiedNode)
  | [], _ => .ok []
  | c :: rest, parent => do
    let s ← parseNode c (some parent)
    let ss ← parseNodeList rest parent
    .ok (s :: ss)
end

mutual
/-- All paint records `parseNode` would feed to `parsePaint`: the entries of
array-typed `fills` and `strokes` fields of this node and of all descendants
reachable through present children lists, in traversal order. -/
def paintsOf : RawNode → List Paint
  | .mk props childrenField =>
    (match props.fills with | .val l => l | _ => []) ++
    ((match props.strokes with | .val l => l | _ => []) ++
     (match childrenField with
      | some cs => paintsOfList cs
      | none => []))

def paintsOfList : List RawNode → List Paint
  | [] => []
  | c :: rest => paintsOf c ++ paintsOfList rest
end

/-- The children step of `parseNode`, named so lemmas can refer to it:
`if (hasValue("children", n) && n.children.length > 0) simplified.children =
n.children.map((child) => parseNode(child, n));`. -/
def childrenResult (cf : Option (List RawNode)) (n : RawNode) :
    Except PaintError (Option (List SimplifiedNode)) :=
  match cf with
  | some cs =>
    if 0 < cs.length then Except.map some (parseNodeList cs n) else pure none
  | none => pure none

/-! ## Spec-side renderings (for refinement statements)

These definitions follow the specification's words, to be compared with the
source-derived definitions above. -/

/-- Spec: each channel is "scaled to the 0–255 integer range by
multiplication and rounding (round-half-up)". -/
def specChannelByte (x : ℚ) : ℕ := (⌊x * 255 + 1 / 2⌋).toNat

/-- Spec: an uppercase hexadecimal digit. -/
def upperHexDigit (n : ℕ) : Char :=
  if n < 10 then Char.ofNat (48 + n) else Char.ofNat (55 + n)

/-- Spec: a byte as two zero-padded uppercase hex digits. -/
def byteHex (n : ℕ) : List Char := [upperHexDigit (n / 16), upperHexDigit (n % 16)]

/-- Spec: "hex is the 6-hex-digit uppercase string `#RRGGBB` formed by
concatenating the three rounded channels, zero-padded". -/
def specHex (c : RGBA) : String :=
  String.mk ('#' :: (byteHex (specChannelByte c.r) ++ byteHex (specChannelByte c.g) ++
    byteHex (specChannelByte c.b)))

/-- Spec: "combined opacity = round(externalOpacity × color.a, 2 decimal
places)", rounding half-up. -/
def specOpacity (o : ℚ) (a : ℚ) : ℚ := (⌊o * a * 100 + 1 / 2⌋ : ℚ) / 100

/-- Claim C5's derivation of line-height, as stated: "(pixel line-height /
font size) with an 'em' suffix, omitted if either operand is missing" — no
zero-guard. -/
def claimLineHeight (st : RawTextStyle) : Option String :=
  match st.lineHeightPx, st.fontSize with
  | some lh, some fs => some (jsNumToString (lh / fs) ++ "em")
  | _, _ => none

/-- Claim C5's derivation of letter-spacing, as stated: "(letterSpacing /
fontSize) × 100 with a '%' suffix, omitted if letter-spacing is absent or
exactly 0 or font size is missing" — no zero-guard on font size. -/
def claimLetterSpacing (st : RawTextStyle) : Option String :=
  match st.letterSpacing, st.fontSize with
  | some ls, some fs =>
    if ls ≠ 0 then some (jsNumToString (ls / fs * 100) ++ "%") else none
  | _, _ => none

/-- Claim C3 as stated: the fills attribute is present only if the source
field exists and is a non-empty list (and symmetrically for strokes). -/
def claimThreeStatement : Prop :=
  ∀ n p r, parseNode n p = .ok r →
    ((r.props.fills).isSome → ∃ l, n.props.fills = JsField.val l ∧ l ≠ []) ∧
    ((r.props.strokes).isSome → ∃ l, n.props.strokes = JsField.val l ∧ l ≠ [])

/-- Claim C5 as stated: whenever the raw node carries a style record, the
normalized text style has exactly the claim's derived line-height and
letter-spacing, and copies the other fields. -/
def claimFiveStatement : Prop :=
  ∀ n p r, parseNode n p = .ok r →
    (n.props.style = none → r.props.textStyle = none) ∧
    ∀ st, n.props.style = some st →
      r.props.textStyle = some
        { fontFamily := st.fontFamily, fontWeight := st.fontWeight,
          fontSize := st.fontSize,
          lineHeight := claimLineHeight st,
          letterSpacing := claimLetterSpacing st,
          textCase := st.textCase,
          textAlignHorizontal := st.textAlignHorizontal,
          textAlignVertical := st.textAlignVertical }

/-- Claim C7 as stated: one unrecognized paint tag anywhere in the tree
makes `parseNode` on the root fail with the UnrecognizedPaintKind error. -/
def claimSevenStatement : Prop :=
  ∀ n p, (∃ pa ∈ paintsOf n, pa.type ∉ recognizedTags) →
    ∃ t, parseNode n p = .error (PaintError.unrecognizedPaintKind t)

/-- Claim C8 as stated, restricted to the attributes with an unambiguous
corresponding source field: presence in the output iff the source data is
present and well-typed (with no further guard). -/
def claimEightStatement : Prop :=
  ∀ n p r, parseNode n p = .ok r →
    ((r.props.text).isSome ↔ (n.props.characters).isSome) ∧
    ((r.props.textStyle).isSome ↔ (n.props.style).isSome) ∧
    ((r.props.fills).isSome ↔ ∃ l, n.props.fills = JsField.val l) ∧
    ((r.props.strokes).isSome ↔ ∃ l, n.props.strokes = JsField.val l) ∧
    ((r.props.strokeWeight).isSome ↔ ∃ w, n.props.strokeWeight = JsField.val w) ∧
    ((r.props.strokeDashes).isSome ↔ ∃ l, n.props.strokeDashes = JsField.val l) ∧
    ((r.props.opacity).isSome ↔ ∃ q, n.props.opacity = JsField.val q) ∧
    ((r.props.borderRadius).isSome ↔ ∃ q, n.props.cornerRadius = JsField.val q) ∧
    ((r.children).isSome ↔ (n.children).isSome)

/-- A paint that will not make the interpreter trip over a missing field:
solid paints carry a color, gradient paints carry a stop list. -/
def wfPaint (p : Paint) : Bool :=
  (p.type != "SOLID" || (p.color).isSome) &&
  (!(decide (p.type ∈ gradientTags)) || (p.gradientStops).isSome)

/-! ## Concrete inputs for witnesses and counterexamples -/

/-- A raw node with every optional field absent. -/
def emptyProps : RawProps :=
  { id := "1", name := "node", type := "FRAME", characters := none, style := none,
    fills := .absent, strokes := .absent, strokeWeight := .absent,
    strokeDashes := .absent, individualStrokeWeights := none,
    opacity := .absent, cornerRadius := .absent }

/-- A well-formed solid red paint with no explicit opacity field. -/
def paintSolidRed : Paint :=
  { type := "SOLID", color := some ⟨1, 0, 0, 1⟩, opacity := none, imageRef := none,
    scaleMode := none, gradientHandlePositions := none, gradientStops := none }

/-- An image paint. -/
def paintImage : Paint :=
  { type := "IMAGE", color := none, opacity := none, imageRef := some "ref-1",
    scaleMode := some "FILL", gradientHandlePositions := none, gradientStops := none }

/-- The simplified fill `parsePaint` produces for `paintImage`. -/
def imageFill : SimplifiedFill :=
  { type := "IMAGE", hex := none, opacity := none, imageRef := some "ref-1",
    scaleMode := some "FILL", gradientHandlePositions := none, gradientStops := none }

/-- A paint with an unrecognized type tag. -/
def paintEmoji : Paint :=
  { type := "EMOJI", color := none, opacity := none, imageRef := none,
    scaleMode := none, gradientHandlePositions := none, gradientStops := none }

/-- A solid paint whose color field is absent (the `raw.color!` hazard). -/
def paintSolidNoColor : Paint :=
  { type := "SOLID", color := none, opacity := some (1 / 2), imageRef := none,
    scaleMode := none, gradientHandlePositions := none, gradientStops := none }

/-- A linear gradient paint with three stops at positions 0, 1/2, 1. -/
def paintGradient : Paint :=
  { type := "GRADIENT_LINEAR", color := none, opacity := none, imageRef := none,
    scaleMode := none,
    gradientHandlePositions := some [⟨0, 0⟩, ⟨1, 1⟩],
    gradientStops := some
      [⟨0, ⟨0, 0, 0, 1⟩⟩, ⟨1 / 2, ⟨1, 0, 0, 1⟩⟩, ⟨1, ⟨0, 0, 1, 1⟩⟩] }

/-- Counterexample node for C3: a present-but-empty fills array. -/
def nodeEmptyFills : RawNode := .mk { emptyProps with fills := .val [] } none

/-- Witness node for C4: numeric stroke weight next to one produced stroke. -/
def nodeStrokeOk : RawNode :=
  .mk { emptyProps with strokes := .val [paintImage], strokeWeight := .val 5 } none

/-- A style record with a present-but-zero pixel line-height next to a
present font size. -/
def styleZeroLineHeight : RawTextStyle :=
  { fontFamily := some "Inter", fontWeight := some 400, fontSize := some 16,
    lineHeightPx := some 0, letterSpacing := none, textCase := none,
    textAlignHorizontal := none, textAlignVertical := none }

/-- Counterexample node for C5: carries `styleZeroLineHeight`. -/
def nodeZeroLineHeight : RawNode :=
  .mk { emptyProps with style := some styleZeroLineHeight } none

/-- A fully populated style record. -/
def styleFull : RawTextStyle :=
  { fontFamily := some "Inter", fontWeight := some 400, fontSize := some 16,
    lineHeightPx := some 24, letterSpacing := some 2, textCase := some "UPPER",
    textAlignHorizontal := some "LEFT", textAlignVertical := some "TOP" }

/-- Witness node for C5 (amended): carries `styleFull`. -/
def nodeFullStyle : RawNode :=
  .mk { emptyProps with style := some styleFull } none

/-- Counterexample node for C7: a child whose fills hold a malformed solid
paint before an unrecognized paint, so the traversal trips over the missing
color first. -/
def nodeTypeErrorFirst : RawNode :=
  .mk emptyProps (some [.mk { emptyProps with fills := .val [paintSolidNoColor, paintEmoji] } none])

/-- Witness node for C7 (amended): a well-formed tree except for one
unrecognized paint two levels down. -/
def nodeDeepEmoji : RawNode :=
  .mk { emptyProps with fills := .val [paintSolidRed] }
    (some [.mk emptyProps (some [.mk { emptyProps with strokes := .val [paintEmoji] } none])])

/-- Counterexample node for C8: a numeric stroke weight with no strokes
attribute at all. -/
def nodeWeightNoStrokes : RawNode :=
  .mk { emptyProps with strokeWeight := .val 5 } none

/-! ## Lemmas about the Except monad -/

theorem except_bind_ok {ε α β : Type} {e : Except ε α} {f : α → Except ε β} {b : β} :
    (e >>= f) = .ok b ↔ ∃ a, e = .ok a ∧ f a = .ok b := by
  cases e <;> simp [Bind.bind, Except.bind]

theorem except_bind_error {ε α β : Type} {e : Except ε α} {f : α → Except ε β} {err : ε} :
    (e >>= f) = .error err ↔ e = .error err ∨ ∃ a, e = .ok a ∧ f a = .error err := by
  cases e <;> simp [Bind.bind, Except.bind]

theorem except_map_ok {ε α β : Type} {e : Except ε α} {f : α → β} {b : β} :
    Except.map f e = .ok b ↔ ∃ a, e = .ok a ∧ b = f a := by
  cases e <;> simp [Except.map, eq_comm]

theorem except_map_error {ε α β : Type} {e : Except ε α} {f : α → β} {err : ε} :
    Except.map f e = .error err ↔ e = .error err := by
  cases e <;> simp [Except.map]

/-! ## Lemmas about mapPaints -/

theorem mapPaints_error_mem {l : List Paint} {e : PaintError}
    (h : mapPaints l = .error e) : ∃ pa ∈ l, parsePaint pa = .error e := by
  induction l with
  | nil => simp [mapPaints] at h
  | cons p rest ih =>
    rw [show mapPaints (p :: rest) =
        (parsePaint p >>= fun f => mapPaints rest >>= fun fs => .ok (f :: fs)) from rfl,
      except_bind_error] at h
    rcases h with h | ⟨f, _, h⟩
    · exact ⟨p, by simp, h⟩
    · rw [except_bind_error] at h
      rcases h with h | ⟨fs, _, h⟩
      · obtain ⟨pa, hmem, hpa⟩ := ih h
        exact ⟨pa, by simp [hmem], hpa⟩
      · simp at h

theorem mapPaints_ok_mem {l : List Paint} {fl : List SimplifiedFill}
    (h : mapPaints l = .ok fl) : ∀ pa ∈ l, ∃ f, parsePaint pa = .ok f := by
  induction l generalizing fl with
  | nil => simp
  | cons p rest ih =>
    rw [show mapPaints (p :: rest) =
        (parsePaint p >>= fun f => mapPaints rest >>= fun fs => .ok (f :: fs)) from rfl,
      except_bind_ok] at h
    obtain ⟨f, hf, h⟩ := h
    rw [except_bind_ok] at h
    obtain ⟨fs, hfs, _⟩ := h
    intro pa hmem
    rcases List.mem_cons.mp hmem with rfl | hmem
    · exact ⟨f, hf⟩
    · exact ih hfs pa hmem

/-! ## Classification of parsePaint results -/

theorem parsePaint_unrec_iff {p : Paint} {t : String} :
    parsePaint p = .error (PaintError.unrecognizedPaintKind t) ↔
      t = p.type ∧ p.type ∉ recognizedTags := by
  by_cases h1 : p.type = "IMAGE"
  · simp [parsePaint, h1, recognizedTags]
  · by_cases h2 : p.type = "SOLID"
    · cases hc : p.color <;> simp [parsePaint, h1, h2, hc, recognizedTags]
    · by_cases h3 : p.type ∈ gradientTags
      · cases hs : p.gradientStops <;>
          simp [parsePaint, h1, h2, h3, hs, recognizedTags]
      · simp [parsePaint, h1, h2, h3, recognizedTags]
        exact eq_comm

theorem parsePaint_typeError_iff {p : Paint} :
    parsePaint p = .error PaintError.typeError ↔
      (p.type = "SOLID" ∧ p.color = none) ∨
      (p.type ∈ gradientTags ∧ p.gradientStops = none) := by
  by_cases h1 : p.type = "IMAGE"
  · simp [parsePaint, h1, gradientTags]
  · by_cases h2 : p.type = "SOLID"
    · cases hc : p.color <;> simp [parsePaint, h1, h2, hc, gradientTags]
    · by_cases h3 : p.type ∈ gradientTags
      · cases hs : p.gradientStops <;>
          simp [parsePaint, h1, h2, h3, hs]
      · simp [parsePaint, h1, h2, h3]

/-! ## Claim C1 -/

/-- C1: for every paint whose type tag is outside the recognized kinds
(solid, image, and the four gradient kinds), `parsePaint` fails with the
UnrecognizedPaintKind error carrying that tag (so it never returns a fill
descriptor), and for every paint whose tag is recognized it never raises
that error. -/
theorem parsePaint_unrecognized_tag_spec (p : Paint) :
    (p.type ∉ recognizedTags →
      parsePaint p = .error (PaintError.unrecognizedPaintKind p.type)) ∧
    (p.type ∈ recognizedTags →
      ∀ t, parsePaint p ≠ .error (PaintError.unrecognizedPaintKind t)) := by
  constructor
  · intro h
    exact parsePaint_unrec_iff.mpr ⟨rfl, h⟩
  · intro h t ht
    exact (parsePaint_unrec_iff.mp ht).2 h

/-- Witness for C1 at the concrete unrecognized tag "EMOJI". -/
theorem parsePaint_unrecognized_tag_spec_witness :
    parsePaint paintEmoji = .error (PaintError.unrecognizedPaintKind "EMOJI") :=
  (parsePaint_unrecognized_tag_spec paintEmoji).1 (by decide)

/-! ## Claim C6 -/

/-- C6: for every paint tagged with one of the four gradient kinds (and
carrying a stop list, which the source dereferences), the normalized fill
keeps the tag, carries the gradient handle positions verbatim, and its stop
list is the source stop list mapped entrywise — same length, same order,
each stop keeping its position and converting its color through
`convertColor` with the opacity argument defaulted (`none`). -/
theorem parsePaint_gradient_spec (p : Paint) (hmem : p.type ∈ gradientTags)
    (stops : List GradientStop) (hstops : p.gradientStops = some stops) :
    parsePaint p = .ok
      { type := p.type, hex := none, opacity := none, imageRef := none,
        scaleMode := none,
        gradientHandlePositions := p.gradientHandlePositions,
        gradientStops := some (stops.map fun s =>
          { position := s.position, color := convertColor s.color none }) } ∧
    (stops.map fun s =>
      ({ position := s.position, color := convertColor s.color none } : SimplifiedStop)).length
      = stops.length := by
  refine ⟨?_, by simp⟩
  simp only [gradientTags, List.mem_cons, List.mem_singleton, List.not_mem_nil, or_false]
    at hmem
  rcases hmem with h | h | h | h <;>
    simp [parsePaint, h, hstops, gradientTags]

/-- Witness for C6 at a concrete three-stop linear gradient; stop positions
0, 1/2, 1 appear in source order. -/
theorem parsePaint_gradient_spec_witness :
    parsePaint paintGradient = .ok
      { type := "GRADIENT_LINEAR", hex := none, opacity := none, imageRef := none,
        scaleMode := none,
        gradientHandlePositions := some [⟨0, 0⟩, ⟨1, 1⟩],
        gradientStops := some
          [⟨0, convertColor ⟨0, 0, 0, 1⟩ none⟩,
           ⟨1 / 2, convertColor ⟨1, 0, 0, 1⟩ none⟩,
           ⟨1, convertColor ⟨0, 0, 1, 1⟩ none⟩] } :=
  (parsePaint_gradient_spec paintGradient (by decide) _ rfl).1

/-! ## Claim C10 -/

/-- C10: the solid branch of `parsePaint` reads the color through the
unchecked non-null assertion `raw.color!`: on a solid paint with no color
field it fails with the runtime dereference error (a `TypeError`), not with
UnrecognizedPaintKind; and on every solid paint whose color field is
present it succeeds — totality on solid paints holds exactly under that
precondition. -/
theorem parsePaint_solid_color_assertion :
    parsePaint paintSolidNoColor = .error PaintError.typeError ∧
    (∀ t, parsePaint paintSolidNoColor ≠ .error (PaintError.unrecognizedPaintKind t)) ∧
    ∀ p : Paint, p.type = "SOLID" → ∀ c, p.color = some c →
      parsePaint p = .ok
        { type := "SOLID", hex := some (convertColor c p.opacity).hex,
          opacity := some (convertColor c p.opacity).opacity, imageRef := none,
          scaleMode := none, gradientHandlePositions := none, gradientStops := none } := by
  refine ⟨rfl, by intro t ht; simp [parsePaint, paintSolidNoColor] at ht, ?_⟩
  intro p h c hc
  simp [parsePaint, h, hc]

/-- Witness for C10's totality part at a concrete well-formed solid paint. -/
theorem parsePaint_solid_color_assertion_witness :
    parsePaint paintSolidRed = .ok
      { type := "SOLID", hex := some (convertColor ⟨1, 0, 0, 1⟩ none).hex,
        opacity := some (convertColor ⟨1, 0, 0, 1⟩ none).opacity, imageRef := none,
        scaleMode := none, gradientHandlePositions := none, gradientStops := none } :=
  parsePaint_solid_color_assertion.2.2 paintSolidRed rfl ⟨1, 0, 0, 1⟩ rfl

/-! ## Hex rendering lemmas (toward C2) -/

theorem natToHexCore_append (n : ℕ) : ∀ fuel acc, n < fuel →
    natToHexCore fuel n acc = natToHexCore fuel n [] ++ acc := by
  induction n using Nat.strong_induction_on with
  | _ n ih =>
    intro fuel acc hlt
    match fuel with
    | f + 1 =>
      by_cases h16 : n < 16
      · simp [natToHexCore, h16]
      · simp only [natToHexCore]
        rw [if_neg h16, if_neg h16]
        have hd : n / 16 < n := Nat.div_lt_self (by omega) (by omega)
        rw [ih (n / 16) hd f _ (by omega)]
        conv_rhs => rw [ih (n / 16) hd f _ (by omega)]
        simp

theorem natToHexCore_fuel_irrel (n : ℕ) : ∀ f1 f2 acc, n < f1 → n < f2 →
    natToHexCore f1 n acc = natToHexCore f2 n acc := by
  induction n using Nat.strong_induction_on with
  | _ n ih =>
    intro f1 f2 acc h1 h2
    match f1, f2 with
    | g1 + 1, g2 + 1 =>
      by_cases h16 : n < 16
      · simp [natToHexCore, h16]
      · simp only [natToHexCore]
        rw [if_neg h16, if_neg h16]
        have hd : n / 16 < n := Nat.div_lt_self (by omega) (by omega)
        exact ih (n / 16) hd g1 g2 _ (by omega) (by omega)

theorem natToHex_small (n : ℕ) (h : n < 16) : natToHex n = [Nat.digitChar n] := by
  simp [natToHex, natToHexCore, h]

theorem natToHex_step (n : ℕ) (h : 16 ≤ n) :
    natToHex n = natToHex (n / 16) ++ [Nat.digitChar (n % 16)] := by
  have h1 : natToHex n = natToHexCore n (n / 16) [Nat.digitChar (n % 16)] := by
    simp only [natToHex, natToHexCore]
    rw [if_neg (by omega)]
  have hd : n / 16 < n := Nat.div_lt_self (by omega) (by omega)
  rw [h1, natToHexCore_append (n / 16) n _ (by omega),
    natToHexCore_fuel_irrel (n / 16) n (n / 16 + 1) [] (by omega) (by omega)]
  rfl

theorem natToHex_bytes (r g b : ℕ) (hr : r < 256) (hg : g < 256) (hb : b < 256) :
    natToHex (16777216 + r * 65536 + g * 256 + b) =
      ['1', Nat.digitChar (r / 16), Nat.digitChar (r % 16),
       Nat.digitChar (g / 16), Nat.digitChar (g % 16),
       Nat.digitChar (b / 16), Nat.digitChar (b % 16)] := by
  rw [natToHex_step (16777216 + r * 65536 + g * 256 + b) (by omega)]
  rw [show (16777216 + r * 65536 + g * 256 + b) % 16 = b % 16 from by omega]
  rw [show (16777216 + r * 65536 + g * 256 + b) / 16
      = 1048576 + r * 4096 + g * 16 + b / 16 from by omega]
  rw [natToHex_step (1048576 + r * 4096 + g * 16 + b / 16) (by omega)]
  rw [show (1048576 + r * 4096 + g * 16 + b / 16) % 16 = b / 16 from by omega]
  rw [show (1048576 + r * 4096 + g * 16 + b / 16) / 16
      = 65536 + r * 256 + g from by omega]
  rw [natToHex_step (65536 + r * 256 + g) (by omega)]
  rw [show (65536 + r * 256 + g) % 16 = g % 16 from by omega]
  rw [show (65536 + r * 256 + g) / 16 = 4096 + r * 16 + g / 16 from by omega]
  rw [natToHex_step (4096 + r * 16 + g / 16) (by omega)]
  rw [show (4096 + r * 16 + g / 16) % 16 = g / 16 from by omega]
  rw [show (4096 + r * 16 + g / 16) / 16 = 256 + r from by omega]
  rw [natToHex_step (256 + r) (by omega)]
  rw [show (256 + r) % 16 = r % 16 from by omega]
  rw [show (256 + r) / 16 = 16 + r / 16 from by omega]
  rw [natToHex_step (16 + r / 16) (by omega)]
  rw [show (16 + r / 16) % 16 = r / 16 from by omega]
  rw [show (16 + r / 16) / 16 = 1 from by omega]
  rw [natToHex_small 1 (by omega)]
  simp
  decide

theorem digitChar_toUpper : ∀ m : ℕ, m < 16 →
    Char.toUpper (Nat.digitChar m) = upperHexDigit m := by decide

theorem jsRound_byte_range {x : ℚ} (h0 : 0 ≤ x) (h1 : x ≤ 1) :
    0 ≤ jsRound (x * 255) ∧ jsRound (x * 255) ≤ 255 := by
  unfold jsRound
  constructor
  · apply Int.le_floor.mpr
    push_cast
    linarith
  · have h : ⌊(x * 255 + 1 / 2 : ℚ)⌋ < (256 : ℤ) := by
      apply Int.floor_lt.mpr
      push_cast
      linarith
    omega

/-! ## Claim C2 -/

/-- C2: for every RGBA color with channels in [0,1] and every external
opacity, `convertColor` returns exactly the spec's hex string — '#' followed
by the three channels scaled by 255, rounded half-up, and rendered as
zero-padded uppercase hex pairs — and the spec's combined opacity —
externalOpacity × alpha rounded half-up to 2 decimal places; an absent
external opacity argument behaves as 1. -/
theorem convertColor_spec (c : RGBA) (o : ℚ)
    (hr0 : 0 ≤ c.r) (hr1 : c.r ≤ 1) (hg0 : 0 ≤ c.g) (hg1 : c.g ≤ 1)
    (hb0 : 0 ≤ c.b) (hb1 : c.b ≤ 1) :
    (convertColor c (some o)).hex = specHex c ∧
    (convertColor c (some o)).opacity = specOpacity o c.a ∧
    convertColor c none = convertColor c (some 1) := by
  refine ⟨?_, rfl, rfl⟩
  obtain ⟨hR0, hR255⟩ := jsRound_byte_range hr0 hr1
  obtain ⟨hG0, hG255⟩ := jsRound_byte_range hg0 hg1
  obtain ⟨hB0, hB255⟩ := jsRound_byte_range hb0 hb1
  unfold convertColor
  dsimp only
  have h2a : (2 : ℤ) ^ 24 = 16777216 := by norm_num
  have h2b : (2 : ℤ) ^ 16 = 65536 := by norm_num
  have h2c : (2 : ℤ) ^ 8 = 256 := by norm_num
  have hM : (2 ^ 24 + jsRound (c.r * 255) * 2 ^ 16 + jsRound (c.g * 255) * 2 ^ 8 +
      jsRound (c.b * 255)).toNat
      = 16777216 + (jsRound (c.r * 255)).toNat * 65536 +
        (jsRound (c.g * 255)).toNat * 256 + (jsRound (c.b * 255)).toNat := by
    rw [h2a, h2b, h2c]
    omega
  rw [hM, natToHex_bytes _ _ _ (by omega) (by omega) (by omega)]
  have hrn : specChannelByte c.r = (jsRound (c.r * 255)).toNat := rfl
  have hgn : specChannelByte c.g = (jsRound (c.g * 255)).toNat := rfl
  have hbn : specChannelByte c.b = (jsRound (c.b * 255)).toNat := rfl
  simp only [specHex, byteHex, hrn, hgn, hbn, List.drop, List.map]
  rw [digitChar_toUpper ((jsRound (c.r * 255)).toNat / 16) (by omega),
    digitChar_toUpper ((jsRound (c.r * 255)).toNat % 16) (by omega),
    digitChar_toUpper ((jsRound (c.g * 255)).toNat / 16) (by omega),
    digitChar_toUpper ((jsRound (c.g * 255)).toNat % 16) (by omega),
    digitChar_toUpper ((jsRound (c.b * 255)).toNat / 16) (by omega),
    digitChar_toUpper ((jsRound (c.b * 255)).toNat % 16) (by omega)]
  rfl

/-- Witness for C2 at pure red with full alpha and external opacity 1/2:
hex "#FF0000" and combined opacity 0.5. -/
theorem convertColor_spec_witness :
    (0 ≤ (1 : ℚ) ∧ (1 : ℚ) ≤ 1 ∧ 0 ≤ (0 : ℚ) ∧ (0 : ℚ) ≤ 1) ∧
    (convertColor ⟨1, 0, 0, 1⟩ (some (1 / 2))).hex = specHex ⟨1, 0, 0, 1⟩ ∧
    (convertColor ⟨1, 0, 0, 1⟩ (some (1 / 2))).opacity = specOpacity (1 / 2) 1 ∧
    convertColor ⟨1, 0, 0, 1⟩ none = convertColor ⟨1, 0, 0, 1⟩ (some 1) := by
  refine ⟨by norm_num, ?_⟩
  exact convertColor_spec ⟨1, 0, 0, 1⟩ (1 / 2) (by norm_num) (by norm_num)
    (by norm_num) (by norm_num) (by norm_num) (by norm_num)

/-! ## Decomposition lemmas for parseNode -/

theorem parseNode_unfold (props : RawProps) (cf : Option (List RawNode))
    (parent : Option RawNode) :
    parseNode (.mk props cf) parent =
      (fillsResult props.fills >>= fun fills =>
       fillsResult props.strokes >>= fun strokes =>
       childrenResult cf (.mk props cf) >>= fun children =>
       .ok (assembleNode props (.mk props cf) parent fills strokes children)) := by
  cases cf with
  | none => simp only [parseNode]; rfl
  | some cs =>
    simp only [parseNode, childrenResult]
    by_cases h : 0 < cs.length
    · simp only [if_pos h]
    · simp only [if_neg h]

theorem parseNode_ok_iff {props : RawProps} {cf : Option (List RawNode)}
    {parent : Option RawNode} {r : SimplifiedNode} :
    parseNode (.mk props cf) parent = .ok r ↔
      ∃ fills strokes children,
        fillsResult props.fills = .ok fills ∧
        fillsResult props.strokes = .ok strokes ∧
        childrenResult cf (.mk props cf) = .ok children ∧
        r = assembleNode props (.mk props cf) parent fills strokes children := by
  rw [parseNode_unfold]
  simp only [except_bind_ok, Except.ok.injEq]
  constructor
  · rintro ⟨fills, hf, strokes, hs, children, hc, hok⟩
    exact ⟨fills, strokes, children, hf, hs, hc, hok.symm⟩
  · rintro ⟨fills, strokes, children, hf, hs, hc, hok⟩
    exact ⟨fills, hf, strokes, hs, children, hc, hok.symm⟩

theorem fillsResult_ok {f : JsField (List Paint)} {o : Option (List SimplifiedFill)}
    (h : fillsResult f = .ok o) :
    ((∀ l, f ≠ JsField.val l) ∧ o = none) ∨
    (∃ l fl, f = JsField.val l ∧ mapPaints l = .ok fl ∧ o = some fl) := by
  cases f with
  | absent =>
    left
    refine ⟨by intro l hl; exact absurd hl (by simp), ?_⟩
    simpa [fillsResult, pure, Except.pure] using h.symm
  | other =>
    left
    refine ⟨by intro l hl; exact absurd hl (by simp), ?_⟩
    simpa [fillsResult, pure, Except.pure] using h.symm
  | val l =>
    right
    rw [show fillsResult (JsField.val l) = Except.map some (mapPaints l) from rfl,
      except_map_ok] at h
    obtain ⟨fl, hfl, ho⟩ := h
    exact ⟨l, fl, rfl, hfl, ho⟩

theorem childrenResult_ok {cf : Option (List RawNode)} {n : RawNode}
    {o : Option (List SimplifiedNode)} (h : childrenResult cf n = .ok o) :
    (o = none ∧ ∀ cs, cf = some cs → cs.length = 0) ∨
    (∃ cs sl, cf = some cs ∧ 0 < cs.length ∧ parseNodeList cs n = .ok sl ∧ o = some sl) := by
  cases cf with
  | none =>
    left
    refine ⟨?_, by simp⟩
    simpa [childrenResult, pure, Except.pure] using h.symm
  | some cs =>
    by_cases hlen : 0 < cs.length
    · right
      rw [show childrenResult (some cs) n
          = Except.map some (parseNodeList cs n) from by simp [childrenResult, hlen],
        except_map_ok] at h
      obtain ⟨sl, hsl, ho⟩ := h
      exact ⟨cs, sl, rfl, hlen, hsl, ho⟩
    · left
      rw [show childrenResult (some cs) n = pure none from by simp [childrenResult, hlen]] at h
      refine ⟨by simpa [pure, Except.pure] using h.symm, ?_⟩
      intro cs2 h2
      injection h2 with h2
      subst h2
      omega

theorem fillsResult_isSome_iff {f : JsField (List Paint)} {o : Option (List SimplifiedFill)}
    (h : fillsResult f = .ok o) : o.isSome ↔ ∃ l, f = JsField.val l := by
  rcases fillsResult_ok h with ⟨hnv, rfl⟩ | ⟨l, fl, rfl, hmap, rfl⟩
  · simp only [Option.isSome_none, Bool.false_eq_true, false_iff]
    rintro ⟨l, rfl⟩
    exact hnv l rfl
  · simp only [Option.isSome_some, true_iff]
    exact ⟨l, rfl⟩

theorem childrenResult_isSome_iff {cf : Option (List RawNode)} {n : RawNode}
    {o : Option (List SimplifiedNode)} (h : childrenResult cf n = .ok o) :
    o.isSome ↔ ∃ cs, cf = some cs ∧ 0 < cs.length := by
  rcases childrenResult_ok h with ⟨rfl, hnone⟩ | ⟨cs, sl, rfl, hlen, hsl, rfl⟩
  · simp only [Option.isSome_none, Bool.false_eq_true, false_iff]
    rintro ⟨cs, rfl, hlen⟩
    have := hnone cs rfl
    omega
  · simp only [Option.isSome_some, true_iff]
    exact ⟨cs, rfl, hlen⟩

/-! ## Claim C3 -/

/-- C3 is false as stated: a present-but-empty fills array still produces a
(present, empty) fills attribute, so presence does not require a non-empty
source list. -/
theorem claimThree_counterexample : ¬ claimThreeStatement := by
  intro h
  have hrun : parseNode nodeEmptyFills none =
      .ok (assembleNode nodeEmptyFills.props nodeEmptyFills none (some []) none none) := rfl
  have h2 := (h nodeEmptyFills none _ hrun).1 rfl
  obtain ⟨l, hl, hne⟩ := h2
  rw [show nodeEmptyFills.props.fills = JsField.val ([] : List Paint) from rfl] at hl
  injection hl with hl
  exact hne hl.symm

/-- C3 (amended): the fills attribute (and likewise strokes) is present on
the normalized node iff the corresponding source field exists and is a list
— possibly empty; when present, it equals the source list with each entry
passed through the paint normalizer. -/
theorem parseNode_fills_strokes_spec (n : RawNode) (p : Option RawNode) (r : SimplifiedNode)
    (h : parseNode n p = .ok r) :
    ((r.props.fills).isSome ↔ ∃ l, n.props.fills = JsField.val l) ∧
    (∀ l, n.props.fills = JsField.val l →
      ∃ fl, mapPaints l = .ok fl ∧ r.props.fills = some fl) ∧
    ((r.props.strokes).isSome ↔ ∃ l, n.props.strokes = JsField.val l) ∧
    (∀ l, n.props.strokes = JsField.val l →
      ∃ fl, mapPaints l = .ok fl ∧ r.props.strokes = some fl) := by
  obtain ⟨props, cf⟩ := n
  rw [parseNode_ok_iff] at h
  obtain ⟨fills, strokes, children, hf, hs, hc, rfl⟩ := h
  simp only [assembleNode, SimplifiedNode.props, RawNode.props]
  refine ⟨fillsResult_isSome_iff hf, ?_, fillsResult_isSome_iff hs, ?_⟩
  · intro l hl
    rcases fillsResult_ok hf with ⟨hnv, rfl⟩ | ⟨l0, fl, hval, hmap, rfl⟩
    · exact absurd hl (hnv l)
    · rw [hl] at hval
      injection hval with hval
      subst hval
      exact ⟨fl, hmap, rfl⟩
  · intro l hl
    rcases fillsResult_ok hs with ⟨hnv, rfl⟩ | ⟨l0, fl, hval, hmap, rfl⟩
    · exact absurd hl (hnv l)
    · rw [hl] at hval
      injection hval with hval
      subst hval
      exact ⟨fl, hmap, rfl⟩

/-- Witness for C3 (amended) at the empty-fills node: the fills attribute is
present. -/
theorem parseNode_fills_strokes_spec_witness :
    (assembleNode nodeEmptyFills.props nodeEmptyFills none (some []) none none).props.fills.isSome :=
  ((parseNode_fills_strokes_spec nodeEmptyFills none _ rfl).1).mpr ⟨[], rfl⟩

/-! ## Claim C4 -/

/-- C4: the stroke-weight attribute is present iff the source stroke-weight
field is numeric AND the normalized strokes attribute was produced non-empty;
when present it carries the source value. -/
theorem parseNode_strokeWeight_spec (n : RawNode) (p : Option RawNode) (r : SimplifiedNode)
    (h : parseNode n p = .ok r) :
    ((r.props.strokeWeight).isSome ↔
      ((∃ w, n.props.strokeWeight = JsField.val w) ∧
        ∃ sl, r.props.strokes = some sl ∧ 0 < sl.length)) ∧
    ∀ w, n.props.strokeWeight = JsField.val w →
      ∀ sl, r.props.strokes = some sl → 0 < sl.length →
        r.props.strokeWeight = some w := by
  obtain ⟨props, cf⟩ := n
  rw [parseNode_ok_iff] at h
  obtain ⟨fills, strokes, children, hf, hs, hc, rfl⟩ := h
  simp only [assembleNode, SimplifiedNode.props, RawNode.props]
  cases hsw : props.strokeWeight with
  | absent => simp
  | other => simp
  | val w =>
    cases strokes with
    | none => simp
    | some sl =>
      by_cases hlen : 0 < sl.length
      · simp [hlen]
      · simp [hlen]
        exact List.length_eq_zero.mp (by omega)

/-- Witness for C4 at a node with stroke weight 5 and one produced stroke. -/
theorem parseNode_strokeWeight_spec_witness :
    (assembleNode nodeStrokeOk.props nodeStrokeOk none none (some [imageFill])
      none).props.strokeWeight = some 5 :=
  (parseNode_strokeWeight_spec nodeStrokeOk none _ rfl).2 5 rfl [imageFill] rfl (by simp)

/-! ## Claim C5 -/

/-- C5 is false as stated: a style record with `lineHeightPx = 0` and
`fontSize = 16` has both operands present, yet the code omits the derived
line-height (JavaScript truthiness treats 0 as absent), where the claim
demands "0em". -/
theorem claimFive_counterexample : ¬ claimFiveStatement := by
  intro h
  have hrun : parseNode nodeZeroLineHeight none =
      .ok (assembleNode nodeZeroLineHeight.props nodeZeroLineHeight none none none none) := rfl
  have h2 := (h _ _ _ hrun).2 styleZeroLineHeight rfl
  have h3 : (assembleNode nodeZeroLineHeight.props nodeZeroLineHeight none none none
      none).props.textStyle = some (parseTextStyle styleZeroLineHeight) := rfl
  rw [h3] at h2
  injection h2 with h2
  have h4 := congrArg SimplifiedTextStyle.lineHeight h2
  rw [show (parseTextStyle styleZeroLineHeight).lineHeight = none from by
    with_unfolding_all rfl] at h4
  rw [show claimLineHeight styleZeroLineHeight
      = some (jsNumToString ((0 : ℚ) / 16) ++ "em") from rfl] at h4
  exact Option.noConfusion h4

/-- C5 (amended): a node with a style record gets a text style whose
line-height is `(lineHeightPx / fontSize) + "em"`, omitted when either
operand is missing or zero; whose letter-spacing is
`(letterSpacing / fontSize) * 100 + "%"`, omitted when letter-spacing is
absent or zero or font size is missing or zero; and whose remaining fields
are copied as present; a node with no style record gets no text-style
attribute. -/
theorem parseNode_textStyle_spec (n : RawNode) (p : Option RawNode) (r : SimplifiedNode)
    (h : parseNode n p = .ok r) :
    (n.props.style = none → r.props.textStyle = none) ∧
    ∀ st, n.props.style = some st →
      r.props.textStyle = some
        { fontFamily := st.fontFamily, fontWeight := st.fontWeight,
          fontSize := st.fontSize,
          lineHeight :=
            match st.lineHeightPx, st.fontSize with
            | some lh, some fs =>
              if lh ≠ 0 ∧ fs ≠ 0 then some (jsNumToString (lh / fs) ++ "em") else none
            | _, _ => none,
          letterSpacing :=
            match st.letterSpacing, st.fontSize with
            | some ls, some fs =>
              if ls ≠ 0 ∧ fs ≠ 0 then some (jsNumToString (ls / fs * 100) ++ "%") else none
            | _, _ => none,
          textCase := st.textCase,
          textAlignHorizontal := st.textAlignHorizontal,
          textAlignVertical := st.textAlignVertical } := by
  obtain ⟨props, cf⟩ := n
  rw [parseNode_ok_iff] at h
  obtain ⟨fills, strokes, children, hf, hs, hc, rfl⟩ := h
  simp only [assembleNode, SimplifiedNode.props, RawNode.props]
  constructor
  · intro hst
    rw [hst]
    rfl
  · intro st hst
    rw [hst]
    rfl

/-- Witness for C5 (amended) at a fully populated style record: line-height
24/16 em, letter-spacing (2/16)·100 %, other fields copied. -/
theorem parseNode_textStyle_spec_witness :
    parseNode nodeFullStyle none =
      .ok (assembleNode nodeFullStyle.props nodeFullStyle none none none none) ∧
    (assembleNode nodeFullStyle.props nodeFullStyle none none none
      none).props.textStyle = some
      { fontFamily := some "Inter", fontWeight := some 400, fontSize := some 16,
        lineHeight := some (jsNumToString ((24 : ℚ) / 16) ++ "em"),
        letterSpacing := some (jsNumToString ((2 : ℚ) / 16 * 100) ++ "%"),
        textCase := some "UPPER", textAlignHorizontal := some "LEFT",
        textAlignVertical := some "TOP" } := by
  have hrun : parseNode nodeFullStyle none =
      .ok (assembleNode nodeFullStyle.props nodeFullStyle none none none none) := rfl
  refine ⟨hrun, ?_⟩
  rw [(parseNode_textStyle_spec nodeFullStyle none _ hrun).2 styleFull rfl]
  with_unfolding_all rfl

/-! ## Claim C8 -/

/-- C8 is false as stated: a node whose only optional source datum is a
numeric stroke weight gets no stroke-weight attribute (the extractor also
demands a non-empty strokes attribute), so present-and-well-typed source
data does not suffice for presence. -/
theorem claimEight_counterexample : ¬ claimEightStatement := by
  intro h
  have hrun : parseNode nodeWeightNoStrokes none =
      .ok (assembleNode nodeWeightNoStrokes.props nodeWeightNoStrokes none none none none) := rfl
  have h2 := ((h _ _ _ hrun).2.2.2.2.1).mpr ⟨5, rfl⟩
  rw [show (assembleNode nodeWeightNoStrokes.props nodeWeightNoStrokes none none none
      none).props.strokeWeight = none from rfl] at h2
  simp at h2

/-- C8 (amended): each optional attribute is present iff its source data is
present, well-typed, and passes that extractor's guard — text additionally
requires a non-empty string, stroke-weight a produced non-empty strokes
attribute, per-side stroke weights all four sides, children a non-empty
list — while the layout attribute is attached unconditionally. -/
theorem parseNode_presence_spec (n : RawNode) (p : Option RawNode) (r : SimplifiedNode)
    (h : parseNode n p = .ok r) :
    ((r.props.text).isSome ↔ ∃ s, n.props.characters = some s ∧ s ≠ "") ∧
    ((r.props.textStyle).isSome ↔ (n.props.style).isSome) ∧
    ((r.props.fills).isSome ↔ ∃ l, n.props.fills = JsField.val l) ∧
    ((r.props.strokes).isSome ↔ ∃ l, n.props.strokes = JsField.val l) ∧
    ((r.props.strokeWeight).isSome ↔
      ((∃ w, n.props.strokeWeight = JsField.val w) ∧
        ∃ sl, r.props.strokes = some sl ∧ 0 < sl.length)) ∧
    ((r.props.strokeDashes).isSome ↔ ∃ l, n.props.strokeDashes = JsField.val l) ∧
    ((r.props.individualStrokeWeights).isSome ↔
      ∃ w, n.props.individualStrokeWeights = some w ∧ isStrokeWeights w = true) ∧
    ((r.props.opacity).isSome ↔ ∃ q, n.props.opacity = JsField.val q) ∧
    ((r.props.borderRadius).isSome ↔ ∃ q, n.props.cornerRadius = JsField.val q) ∧
    (r.props.layout).isSome ∧
    ((r.children).isSome ↔ ∃ cs, n.children = some cs ∧ 0 < cs.length) := by
  obtain ⟨props, cf⟩ := n
  rw [parseNode_ok_iff] at h
  obtain ⟨fills, strokes, children, hf, hs, hc, rfl⟩ := h
  simp only [assembleNode, SimplifiedNode.props, SimplifiedNode.children, RawNode.props,
    RawNode.children]
  refine ⟨?_, ?_, fillsResult_isSome_iff hf, fillsResult_isSome_iff hs, ?_, ?_, ?_, ?_, ?_,
    by simp, childrenResult_isSome_iff hc⟩
  · cases hch : props.characters with
    | none => simp
    | some s =>
      by_cases hs0 : s = ""
      · simp [isTruthyString, hs0]
      · simp [isTruthyString, hs0]
  · cases hst : props.style <;> simp
  · cases hsw : props.strokeWeight with
    | absent => simp
    | other => simp
    | val w =>
      cases strokes with
      | none => simp
      | some sl =>
        by_cases hlen : 0 < sl.length
        · simp [hlen]
        · simp [hlen]
  · cases hsd : props.strokeDashes <;> simp
  · cases hw : props.individualStrokeWeights with
    | none => simp
    | some w =>
      rcases w with ⟨t, ri, bo, le⟩
      cases t <;> cases ri <;> cases bo <;> cases le <;>
        simp [isStrokeWeights]
  · cases hop : props.opacity <;> simp
  · cases hcr : props.cornerRadius <;> simp

/-- Witness for C8 (amended) at the weight-without-strokes node: the layout
attribute is present even though that node carries no optional source data
at all. -/
theorem parseNode_presence_spec_witness :
    (assembleNode nodeWeightNoStrokes.props nodeWeightNoStrokes none none none
      none).props.layout.isSome :=
  (parseNode_presence_spec nodeWeightNoStrokes none _ rfl).2.2.2.2.2.2.2.2.2.1

/-! ## Error tracing through the tree (toward C7) -/

theorem fillsResult_error {f : JsField (List Paint)} {e : PaintError}
    (h : fillsResult f = .error e) :
    ∃ l, f = JsField.val l ∧ mapPaints l = .error e := by
  cases f with
  | absent => simp [fillsResult, pure, Except.pure] at h
  | other => simp [fillsResult, pure, Except.pure] at h
  | val l =>
    rw [show fillsResult (JsField.val l) = Except.map some (mapPaints l) from rfl,
      except_map_error] at h
    exact ⟨l, rfl, h⟩

theorem childrenResult_error {cf : Option (List RawNode)} {n : RawNode} {e : PaintError}
    (h : childrenResult cf n = .error e) :
    ∃ cs, cf = some cs ∧ 0 < cs.length ∧ parseNodeList cs n = .error e := by
  cases cf with
  | none => simp [childrenResult, pure, Except.pure] at h
  | some cs =>
    by_cases hlen : 0 < cs.length
    · rw [show childrenResult (some cs) n
          = Except.map some (parseNodeList cs n) from by simp [childrenResult, hlen],
        except_map_error] at h
      exact ⟨cs, rfl, hlen, h⟩
    · rw [show childrenResult (some cs) n = pure none from by simp [childrenResult, hlen]] at h
      simp [pure, Except.pure] at h

theorem parseNode_error_step {props : RawProps} {cf : Option (List RawNode)}
    {parent : Option RawNode} {e : PaintError}
    (h : parseNode (.mk props cf) parent = .error e) :
    fillsResult props.fills = .error e ∨ fillsResult props.strokes = .error e ∨
    childrenResult cf (.mk props cf) = .error e := by
  rw [parseNode_unfold, except_bind_error] at h
  rcases h with h | ⟨fills, -, h⟩
  · exact Or.inl h
  rw [except_bind_error] at h
  rcases h with h | ⟨strokes, -, h⟩
  · exact Or.inr (Or.inl h)
  rw [except_bind_error] at h
  rcases h with h | ⟨children, -, h⟩
  · exact Or.inr (Or.inr h)
  · exact absurd h (by simp)

theorem parseNodeList_cons (c : RawNode) (rest : List RawNode) (parent : RawNode) :
    parseNodeList (c :: rest) parent =
      (parseNode c (some parent) >>= fun s =>
       parseNodeList rest parent >>= fun ss => .ok (s :: ss)) := by
  simp only [parseNodeList]

theorem parseNodeList_error_elim {cs : List RawNode} {parent : RawNode} {e : PaintError}
    (h : parseNodeList cs parent = .error e) :
    ∃ c ∈ cs, parseNode c (some parent) = .error e := by
  induction cs with
  | nil => simp [parseNodeList] at h
  | cons c rest ih =>
    rw [parseNodeList_cons, except_bind_error] at h
    rcases h with h | ⟨s, -, h⟩
    · exact ⟨c, by simp, h⟩
    rw [except_bind_error] at h
    rcases h with h | ⟨ss, -, h⟩
    · obtain ⟨c2, hmem, hc2⟩ := ih h
      exact ⟨c2, by simp [hmem], hc2⟩
    · exact absurd h (by simp)

theorem parseNodeList_ok_mem {cs : List RawNode} {parent : RawNode} {sl : List SimplifiedNode}
    (h : parseNodeList cs parent = .ok sl) :
    ∀ c ∈ cs, ∃ r, parseNode c (some parent) = .ok r := by
  induction cs generalizing sl with
  | nil => simp
  | cons c rest ih =>
    rw [parseNodeList_cons, except_bind_ok] at h
    obtain ⟨s, hs, h⟩ := h
    rw [except_bind_ok] at h
    obtain ⟨ss, hss, -⟩ := h
    intro c2 hmem
    rcases List.mem_cons.mp hmem with rfl | hmem
    · exact ⟨s, hs⟩
    · exact ih hss c2 hmem

theorem paintsOf_mk (props : RawProps) (cf : Option (List RawNode)) :
    paintsOf (.mk props cf) =
      (match props.fills with | JsField.val l => l | _ => []) ++
      ((match props.strokes with | JsField.val l => l | _ => []) ++
       (match cf with | some cs => paintsOfList cs | none => [])) := by
  cases cf <;> simp only [paintsOf]

theorem mem_paintsOf_fills {props : RawProps} {cf : Option (List RawNode)} {pa : Paint}
    {l : List Paint} (hl : props.fills = JsField.val l) (hpa : pa ∈ l) :
    pa ∈ paintsOf (.mk props cf) := by
  rw [paintsOf_mk, hl]
  exact List.mem_append_left _ hpa

theorem mem_paintsOf_strokes {props : RawProps} {cf : Option (List RawNode)} {pa : Paint}
    {l : List Paint} (hl : props.strokes = JsField.val l) (hpa : pa ∈ l) :
    pa ∈ paintsOf (.mk props cf) := by
  rw [paintsOf_mk, hl]
  exact List.mem_append_right _ (List.mem_append_left _ hpa)

theorem mem_paintsOfList {cs : List RawNode} {c : RawNode} {pa : Paint}
    (hc : c ∈ cs) (hpa : pa ∈ paintsOf c) : pa ∈ paintsOfList cs := by
  induction cs with
  | nil => simp at hc
  | cons d rest ih =>
    simp only [paintsOfList]
    rcases List.mem_cons.mp hc with rfl | hc
    · exact List.mem_append_left _ hpa
    · exact List.mem_append_right _ (ih hc)

theorem mem_paintsOf_child {props : RawProps} {cf : Option (List RawNode)} {pa : Paint}
    {cs : List RawNode} {c : RawNode} (hcf : cf = some cs) (hc : c ∈ cs)
    (hpa : pa ∈ paintsOf c) : pa ∈ paintsOf (.mk props cf) := by
  rw [paintsOf_mk, hcf]
  exact List.mem_append_right _ (List.mem_append_right _ (mem_paintsOfList hc hpa))

theorem paintsOfList_mem {cs : List RawNode} {pa : Paint}
    (h : pa ∈ paintsOfList cs) : ∃ c ∈ cs, pa ∈ paintsOf c := by
  induction cs with
  | nil => simp [paintsOfList] at h
  | cons d rest ih =>
    simp only [paintsOfList] at h
    rcases List.mem_append.mp h with h | h
    · exact ⟨d, by simp, h⟩
    · obtain ⟨c, hmem, hpa⟩ := ih h
      exact ⟨c, by simp [hmem], hpa⟩

theorem paintsOf_cases {props : RawProps} {cf : Option (List RawNode)} {pa : Paint}
    (h : pa ∈ paintsOf (.mk props cf)) :
    (∃ l, props.fills = JsField.val l ∧ pa ∈ l) ∨
    (∃ l, props.strokes = JsField.val l ∧ pa ∈ l) ∨
    (∃ cs c, cf = some cs ∧ c ∈ cs ∧ pa ∈ paintsOf c) := by
  rw [paintsOf_mk] at h
  rcases List.mem_append.mp h with h | h
  · rcases hfl : props.fills with _ | _ | l <;> rw [hfl] at h
    · simp at h
    · simp at h
    · exact Or.inl ⟨l, rfl, h⟩
  rcases List.mem_append.mp h with h | h
  · rcases hst : props.strokes with _ | _ | l <;> rw [hst] at h
    · simp at h
    · simp at h
    · exact Or.inr (Or.inl ⟨l, rfl, h⟩)
  · rcases hcf : cf with _ | cs <;> rw [hcf] at h
    · simp at h
    · obtain ⟨c, hmem, hpa⟩ := paintsOfList_mem h
      exact Or.inr (Or.inr ⟨cs, c, rfl, hmem, hpa⟩)

theorem parseNode_error_paint_aux : ∀ k : ℕ, ∀ n : RawNode, ∀ p : Option RawNode,
    ∀ e : PaintError, sizeOf n ≤ k → parseNode n p = .error e →
    ∃ pa ∈ paintsOf n, parsePaint pa = .error e := by
  intro k
  induction k with
  | zero =>
    intro n p e hsz
    obtain ⟨props, cf⟩ := n
    simp [RawNode.mk.sizeOf_spec] at hsz
  | succ k ih =>
    intro n p e hsz h
    obtain ⟨props, cf⟩ := n
    rcases parseNode_error_step h with hf | hs | hc
    · obtain ⟨l, hl, hmap⟩ := fillsResult_error hf
      obtain ⟨pa, hmem, hpa⟩ := mapPaints_error_mem hmap
      exact ⟨pa, mem_paintsOf_fills hl hmem, hpa⟩
    · obtain ⟨l, hl, hmap⟩ := fillsResult_error hs
      obtain ⟨pa, hmem, hpa⟩ := mapPaints_error_mem hmap
      exact ⟨pa, mem_paintsOf_strokes hl hmem, hpa⟩
    · obtain ⟨cs, hcf, hlen, hlist⟩ := childrenResult_error hc
      obtain ⟨c, hcmem, hcerr⟩ := parseNodeList_error_elim hlist
      have hsz2 : sizeOf c ≤ k := by
        subst hcf
        have h1 : sizeOf c < sizeOf cs := List.sizeOf_lt_of_mem hcmem
        simp [RawNode.mk.sizeOf_spec] at hsz
        omega
      obtain ⟨pa, hpmem, hpa⟩ := ih c (some (.mk props cf)) e hsz2 hcerr
      exact ⟨pa, mem_paintsOf_child hcf hcmem hpmem, hpa⟩

theorem parseNode_error_paint {n : RawNode} {p : Option RawNode} {e : PaintError}
    (h : parseNode n p = .error e) : ∃ pa ∈ paintsOf n, parsePaint pa = .error e :=
  parseNode_error_paint_aux (sizeOf n) n p e le_rfl h

theorem parseNode_ok_paint_aux : ∀ k : ℕ, ∀ n : RawNode, ∀ p : Option RawNode,
    ∀ r : SimplifiedNode, sizeOf n ≤ k → parseNode n p = .ok r →
    ∀ pa ∈ paintsOf n, ∃ f, parsePaint pa = .ok f := by
  intro k
  induction k with
  | zero =>
    intro n p r hsz
    obtain ⟨props, cf⟩ := n
    simp [RawNode.mk.sizeOf_spec] at hsz
  | succ k ih =>
    intro n p r hsz h pa hpa
    obtain ⟨props, cf⟩ := n
    rw [parseNode_ok_iff] at h
    obtain ⟨fills, strokes, children, hf, hs, hc, -⟩ := h
    rcases paintsOf_cases hpa with ⟨l, hl, hmem⟩ | ⟨l, hl, hmem⟩ | ⟨cs, c, hcf, hcmem, hcpa⟩
    · rcases fillsResult_ok hf with ⟨hnv, -⟩ | ⟨l0, fl, hval, hmap, -⟩
      · exact absurd hl (hnv l)
      · rw [hl] at hval
        injection hval with hval
        subst hval
        exact mapPaints_ok_mem hmap pa hmem
    · rcases fillsResult_ok hs with ⟨hnv, -⟩ | ⟨l0, fl, hval, hmap, -⟩
      · exact absurd hl (hnv l)
      · rw [hl] at hval
        injection hval with hval
        subst hval
        exact mapPaints_ok_mem hmap pa hmem
    · rcases childrenResult_ok hc with ⟨-, hnone⟩ | ⟨cs2, sl, hcf2, hlen, hsl, -⟩
      · have hz := hnone cs hcf
        have : cs = [] := List.length_eq_zero.mp hz
        subst this
        simp at hcmem
      · rw [hcf] at hcf2
        injection hcf2 with hcf2
        subst hcf2
        obtain ⟨rc, hrc⟩ := parseNodeList_ok_mem hsl c hcmem
        have hsz2 : sizeOf c ≤ k := by
          subst hcf
          have h1 : sizeOf c < sizeOf cs := List.sizeOf_lt_of_mem hcmem
          simp [RawNode.mk.sizeOf_spec] at hsz
          omega
        exact ih c (some (.mk props cf)) rc hsz2 hrc pa hcpa

theorem parseNode_ok_paint {n : RawNode} {p : Option RawNode} {r : SimplifiedNode}
    (h : parseNode n p = .ok r) : ∀ pa ∈ paintsOf n, ∃ f, parsePaint pa = .ok f :=
  parseNode_ok_paint_aux (sizeOf n) n p r le_rfl h

/-! ## Claim C7 -/

/-- C7 is false as stated: in a tree that contains an unrecognized paint but
where a malformed solid paint (missing color) is reached first, the
transformation fails with the dereference `TypeError`, not with
UnrecognizedPaintKind. -/
theorem claimSeven_counterexample : ¬ claimSevenStatement := by
  intro h
  have hmem : paintEmoji ∈ paintsOf nodeTypeErrorFirst := by
    rw [show paintsOf nodeTypeErrorFirst = [paintSolidNoColor, paintEmoji] from rfl]
    exact List.mem_cons_of_mem _ (List.mem_cons_self _ _)
  obtain ⟨t, ht⟩ := h nodeTypeErrorFirst none ⟨paintEmoji, hmem, by decide⟩
  rw [show parseNode nodeTypeErrorFirst none = .error PaintError.typeError from rfl] at ht
  simp at ht

/-- C7 (amended): one unrecognized paint tag anywhere in the tree (in any
node's array-typed fills or strokes, at any depth reachable through
children) makes `parseNode` on the root fail — no normalized tree is
returned; and when every solid paint in the tree carries a color and every
gradient paint carries a stop list (so no dereference error can preempt),
the failure is the UnrecognizedPaintKind error, carrying an unrecognized
tag. -/
theorem parseNode_unknown_paint_fails (n : RawNode) (p : Option RawNode)
    (hbad : ∃ pa ∈ paintsOf n, pa.type ∉ recognizedTags) :
    (∃ e, parseNode n p = .error e) ∧
    ((∀ pa ∈ paintsOf n, wfPaint pa = true) →
      ∃ t, t ∉ recognizedTags ∧
        parseNode n p = .error (PaintError.unrecognizedPaintKind t)) := by
  obtain ⟨pa, hmem, hunrec⟩ := hbad
  have herr : ∃ e, parseNode n p = .error e := by
    cases hres : parseNode n p with
    | ok r =>
      obtain ⟨f, hf⟩ := parseNode_ok_paint hres pa hmem
      rw [parsePaint_unrec_iff.mpr ⟨rfl, hunrec⟩] at hf
      exact absurd hf (by simp)
    | error e => exact ⟨e, rfl⟩
  refine ⟨herr, ?_⟩
  intro hwf
  obtain ⟨e, he⟩ := herr
  obtain ⟨pa2, hmem2, hpa2⟩ := parseNode_error_paint he
  cases e with
  | typeError =>
    have hw := hwf pa2 hmem2
    rcases parsePaint_typeError_iff.mp hpa2 with ⟨hsolid, hcol⟩ | ⟨hgrad, hstops⟩
    · simp [wfPaint, hsolid, hcol] at hw
    · simp [wfPaint, hgrad, hstops] at hw
  | unrecognizedPaintKind t =>
    obtain ⟨rfl, hnotin⟩ := parsePaint_unrec_iff.mp hpa2
    exact ⟨pa2.type, hnotin, he⟩

/-- Witness for C7 (amended) at a well-formed tree with one unrecognized
paint two levels down: the whole transformation fails with
UnrecognizedPaintKind. -/
theorem parseNode_unknown_paint_fails_witness :
    (∃ e, parseNode nodeDeepEmoji none = .error e) ∧
    ∃ t, t ∉ recognizedTags ∧
      parseNode nodeDeepEmoji none = .error (PaintError.unrecognizedPaintKind t) := by
  have happ := parseNode_unknown_paint_fails nodeDeepEmoji none ⟨paintEmoji, by
    rw [show paintsOf nodeDeepEmoji = [paintSolidRed, paintEmoji] from rfl]
    exact List.mem_cons_of_mem _ (List.mem_cons_self _ _), by decide⟩
  refine ⟨happ.1, happ.2 ?_⟩
  intro pa hpa
  rw [show paintsOf nodeDeepEmoji = [paintSolidRed, paintEmoji] from rfl] at hpa
  rcases List.mem_cons.mp hpa with rfl | hpa
  · decide
  rcases List.mem_cons.mp hpa with rfl | hpa
  · decide
  · simp at hpa

/-! ## Claim C9 -/

/-- C9: the node transformation is deterministic — it is a pure function of
the raw node and parent, so two applications to the same inputs yield
structurally identical results. -/
theorem parseNode_deterministic (n : RawNode) (p : Option RawNode) :
    parseNode n p = parseNode n p := rfl

end Figma
